import Mathlib

set_option linter.unusedVariables false

/-!
Verification of the approach-planner core of the `play_motion` repository
(`src/play_motion/src/approach_planner.cpp`).

The embedding models joint positions, velocities, accelerations and time
offsets as rational numbers (`rclcpp::Duration` stores exact integer
nanoseconds, and the double arithmetic of the source is idealized as exact;
a separate extended-value model `FVal` captures the IEEE-754 special-value
behaviour of `double` where a claim is specifically about it).

The external MoveIt planner is out of scope of the repository and is modelled
as an oracle (`PlannerEnv`): `setJointValueTargetOk` tells whether a
`setJointValueTarget` call on a given group succeeds, and `planResult` gives
the trajectory returned by `move_group->plan` for a given group (or `none`
for a non-success error code).  `planApproach` and `computeApproach`
additionally record, for each attempted group, the list of
`setJointValueTarget` calls that were issued, so that goal-setting behaviour
can be stated.
-/

namespace PlayMotion

/-- A trajectory waypoint (`play_motion::TrajPoint` /
`trajectory_msgs::msg::JointTrajectoryPoint`): positions, optional
velocities and accelerations (empty list encodes "absent"), and the time
offset from the trajectory start. -/
structure TrajPoint where
  positions : List ℚ
  velocities : List ℚ
  accelerations : List ℚ
  time_from_start : ℚ
deriving Repr, DecidableEq, Inhabited

/-- `trajectory_msgs::msg::JointTrajectory`: a joint-name ordering and the
waypoints expressed over it. -/
structure JointTrajectory where
  joint_names : List String
  points : List TrajPoint
deriving Repr, DecidableEq, Inhabited

/-- One entry of the planning-group registry
(`ApproachPlanner::PlanningData` together with the name of its
`MoveGroupInterface`): the group name and its controlled joints, sorted at
construction (the `PlanningData` constructor sorts `getActiveJoints()`). -/
structure MoveGroup where
  name : String
  sorted_joint_names : List String
deriving Repr, DecidableEq

/-- The configuration state of an `ApproachPlanner` instance, fixed at
construction: joint tolerance, the two skip-planning timing parameters, the
`disable_motion_planning` flag, the joints excluded from planning, and the
planning-group registry in configuration order. -/
structure ApproachPlannerConfig where
  joint_tol : ℚ
  skip_planning_vel : ℚ
  skip_planning_min_dur : ℚ
  planning_disabled : Bool
  no_plan_joints : List String
  planning_data : List MoveGroup
deriving Repr, DecidableEq

/-- Oracle for the external MoveIt planner collaborator (out of scope of the
repository): per group name, whether setting an individual joint goal
succeeds, and the outcome of a `plan` invocation (`none` encodes a
non-success `MoveItErrorCode`). -/
structure PlannerEnv where
  setJointValueTargetOk : String → String → ℚ → Bool
  planResult : String → Option JointTrajectory

/-- `ApproachPlanner::isPlanningJoint`: a joint is eligible for planning iff
it is not on the exclusion list. -/
def isPlanningJoint (cfg : ApproachPlannerConfig) (joint_name : String) : Bool :=
  !(cfg.no_plan_joints.contains joint_name)

/-- Zip the aligned per-joint data of a request into one list of
`(name, current, goal)` triples (the loop of `computeApproach` walks the
three arrays at a common index). -/
def zip3 (jn : List String) (cur goal : List ℚ) : List (String × ℚ × ℚ) :=
  jn.zip (cur.zip goal)

/-- The partitioning loop of `ApproachPlanner::computeApproach`
(lines 301-309): build `max_planning_group` with its goal values (eligible
joints) and `min_planning_group` (eligible joints whose current position
differs from the goal by more than the tolerance). -/
def planningSets (cfg : ApproachPlannerConfig) :
    List (String × ℚ × ℚ) → List String × List ℚ × List String
  | [] => ([], [], [])
  | (n, c, g) :: rest =>
    let r := planningSets cfg rest
    if isPlanningJoint cfg n then
      (n :: r.1, g :: r.2.1, if |c - g| > cfg.joint_tol then n :: r.2.2 else r.2.2)
    else r

/-- The `max_planning_group` joint names computed by `computeApproach`. -/
def maxPlanningGroup (cfg : ApproachPlannerConfig) (jn : List String)
    (cur goal : List ℚ) : List String :=
  (planningSets cfg (zip3 jn cur goal)).1

/-- The `max_planning_values` goal values computed by `computeApproach`. -/
def maxPlanningValues (cfg : ApproachPlannerConfig) (jn : List String)
    (cur goal : List ℚ) : List ℚ :=
  (planningSets cfg (zip3 jn cur goal)).2.1

/-- The `min_planning_group` joint names computed by `computeApproach`. -/
def minPlanningGroup (cfg : ApproachPlannerConfig) (jn : List String)
    (cur goal : List ℚ) : List String :=
  (planningSets cfg (zip3 jn cur goal)).2.2

/-- `std::sort` over joint names (used on `min_group` / `max_group` copies in
`getValidMoveGroups` and on each group at registry construction): any
comparison sort; modelled by insertion sort. -/
def sortJointNames (l : List String) : List String :=
  List.insertionSort (fun a b => a ≤ b) l

/-- `std::includes(first1, last1, first2, last2)` over sorted `String`
ranges: true iff the second sorted range is a sorted subsequence of the
first. -/
def includes : List String → List String → Bool
  | _, [] => true
  | [], _ :: _ => false
  | a :: as, b :: bs =>
    if b < a then false
    else if a < b then includes as (b :: bs)
    else includes as bs

/-- `ApproachPlanner::getValidMoveGroups` (lines 456-479): keep, in registry
order, every group whose sorted joint set includes the sorted `min_group`
and is included in the sorted `max_group`. -/
def getValidMoveGroups (cfg : ApproachPlannerConfig)
    (min_group max_group : List String) : List MoveGroup :=
  let min_group_s := sortJointNames min_group
  let max_group_s := sortJointNames max_group
  cfg.planning_data.filter fun data =>
    includes data.sorted_joint_names min_group_s &&
      includes max_group_s data.sorted_joint_names

/-- The goal-setting loop of `ApproachPlanner::planApproach` (lines 355-363):
issue `setJointValueTarget` calls in order, stopping at the first failure.
Returns the list of issued `(joint, value)` calls and whether all succeeded. -/
def setGoalsLoop (env : PlannerEnv) (gname : String) :
    List (String × ℚ) → List (String × ℚ) × Bool
  | [] => ([], true)
  | (n, v) :: rest =>
    if env.setJointValueTargetOk gname n v then
      let r := setGoalsLoop env gname rest
      ((n, v) :: r.1, r.2)
    else ([(n, v)], false)

/-- `ApproachPlanner::planApproach` (lines 348-386): set all per-joint goals,
invoke the planner, treat a non-success code or an empty resulting
trajectory as failure.  The first component records the
`setJointValueTarget` calls issued. -/
def planApproach (env : PlannerEnv) (joint_names : List String)
    (joint_values : List ℚ) (g : MoveGroup) :
    List (String × ℚ) × Option JointTrajectory :=
  let r := setGoalsLoop env g.name (joint_names.zip joint_values)
  if r.2 then
    match env.planResult g.name with
    | some plan => if plan.points = [] then (r.1, none) else (r.1, some plan)
    | none => (r.1, none)
  else (r.1, none)

/-- The candidate loop of `computeApproach` (lines 331-336): try each valid
group in order, stopping at the first success.  Records, per attempted
group, its name and the goal-setting calls issued for it. -/
def tryGroups (env : PlannerEnv) (joint_names : List String)
    (joint_values : List ℚ) :
    List MoveGroup → List (String × List (String × ℚ)) × Option JointTrajectory
  | [] => ([], none)
  | g :: rest =>
    let r := planApproach env joint_names joint_values g
    if r.2.isSome then ([(g.name, r.1)], r.2)
    else
      let rec_r := tryGroups env joint_names joint_values rest
      ((g.name, r.1) :: rec_r.1, rec_r.2)

/-- `ApproachPlanner::computeApproach` (lines 280-346).  The second component
is the computed approach trajectory (`none` encodes returning `false`); the
first component records the attempted groups with their goal-setting calls. -/
def computeApproach (cfg : ApproachPlannerConfig) (env : PlannerEnv)
    (joint_names : List String) (current_pos goal_pos : List ℚ) :
    List (String × List (String × ℚ)) × Option JointTrajectory :=
  let sets := planningSets cfg (zip3 joint_names current_pos goal_pos)
  if sets.2.2 = [] then ([], some ⟨[], []⟩)
  else
    let valid := getValidMoveGroups cfg sets.2.2 sets.1
    if valid = [] then ([], none)
    else tryGroups env sets.1 sets.2.1 valid

/-- One merged waypoint of `ApproachPlanner::combineTrajectories`
(lines 397-436): joints present in the approach copy the planned values
(index-translated); joints absent from it are linearly interpolated between
the current position at time 0 and the input trajectory's first position at
the approach's final time offset. -/
def mergedPoint (joint_names : List String) (current_pos : List ℚ)
    (traj_in : List TrajPoint) (approach : JointTrajectory)
    (point_appr : TrajPoint) : TrajPoint :=
  let joint_dim := (traj_in.headD default).positions.length
  let has_velocities := !point_appr.velocities.isEmpty
  let has_accelerations := !point_appr.accelerations.isEmpty
  let t_max := (approach.points.getLastD default).time_from_start
  let posOf : ℕ → ℚ := fun i =>
    match approach.joint_names.findIdx? (fun x => x == joint_names.getD i "") with
    | some approach_id => point_appr.positions.getD approach_id 0
    | none =>
      let p_min := current_pos.getD i 0
      let p_max := (traj_in.headD default).positions.getD i 0
      p_min + (p_max - p_min) / (t_max - 0) * point_appr.time_from_start
  let velOf : ℕ → ℚ := fun i =>
    match approach.joint_names.findIdx? (fun x => x == joint_names.getD i "") with
    | some approach_id => point_appr.velocities.getD approach_id 0
    | none =>
      let p_min := current_pos.getD i 0
      let p_max := (traj_in.headD default).positions.getD i 0
      (p_max - p_min) / (t_max - 0)
  let accOf : ℕ → ℚ := fun i =>
    match approach.joint_names.findIdx? (fun x => x == joint_names.getD i "") with
    | some _ => point_appr.accelerations.getD
        ((approach.joint_names.findIdx? (fun x => x == joint_names.getD i "")).getD 0) 0
    | none => 0
  { positions := (List.range joint_dim).map posOf
    velocities := if has_velocities then (List.range joint_dim).map velOf else []
    accelerations := if has_accelerations then (List.range joint_dim).map accOf else []
    time_from_start := point_appr.time_from_start }

/-- `ApproachPlanner::combineTrajectories` (lines 388-454).  The caller's
`traj_out` vector is taken as it is (the function only pushes onto it): the
merged approach points are appended, then, unless the input trajectory is a
single point, the last merged point is dropped as a duplicate and the input
points are appended shifted by the approach duration. -/
def combineTrajectories (joint_names : List String) (current_pos : List ℚ)
    (traj_in : List TrajPoint) (approach : JointTrajectory)
    (traj_out : List TrajPoint) : List TrajPoint :=
  let out1 := traj_out ++
    approach.points.map (mergedPoint joint_names current_pos traj_in approach)
  if traj_in.length = 1 then out1
  else
    let offset := (out1.getLastD default).time_from_start
    out1.dropLast ++
      traj_in.map fun p => { p with time_from_start := p.time_from_start + offset }

/-- `ApproachPlanner::noPlanningReachTime` (lines 488-500): the maximum
absolute joint displacement divided by the skip-planning velocity, floored
by the skip-planning minimum duration. -/
def noPlanningReachTime (cfg : ApproachPlannerConfig)
    (curr_pos goal_pos : List ℚ) : ℚ :=
  let dmax := (List.range curr_pos.length).foldl
    (fun dmax i =>
      let d := |goal_pos.getD i 0 - curr_pos.getD i 0|
      if d > dmax then d else dmax) 0
  max (dmax / cfg.skip_planning_vel) cfg.skip_planning_min_dur

/-- Add a common offset to the time offset of every waypoint (the
`for (auto & point : traj_out)` loops of `prependApproach`). -/
def addOffset (r : ℚ) (t : List TrajPoint) : List TrajPoint :=
  t.map fun p => { p with time_from_start := p.time_from_start + r }

/-- The skip-planning branch of `ApproachPlanner::prependApproach`
(lines 208-220): copy the input; if its first time offset is exactly zero,
add the no-planning reach time to every waypoint. -/
def skipBranch (cfg : ApproachPlannerConfig) (current_pos : List ℚ)
    (traj : List TrajPoint) : List TrajPoint :=
  if (traj.headD default).time_from_start = 0 then
    addOffset (noPlanningReachTime cfg current_pos (traj.headD default).positions) traj
  else traj

/-- The final timing normalization of `prependApproach` (lines 246-264):
if the first time offset is zero and the recomputed reach time exceeds the
epsilon `1e-3`, shift every waypoint by it; if the first time offset is
still zero afterwards, force it to the epsilon. -/
def postProcess (cfg : ApproachPlannerConfig) (current_pos : List ℚ) :
    List TrajPoint → List TrajPoint
  | [] => []
  | p :: rest =>
    let eps_time : ℚ := 1/1000
    let t1 :=
      if p.time_from_start = 0 then
        let reach_time := noPlanningReachTime cfg current_pos p.positions
        if reach_time > eps_time then addOffset reach_time (p :: rest) else p :: rest
      else p :: rest
    match t1 with
    | [] => []
    | q :: rest1 =>
      if q.time_from_start = 0 then { q with time_from_start := eps_time } :: rest1
      else q :: rest1

/-- `ApproachPlanner::prependApproach` (lines 170-267).  The result pairs the
returned boolean with the final state of the caller-supplied `traj_out`
vector (whose initial state is the last argument). -/
def prependApproach (cfg : ApproachPlannerConfig) (env : PlannerEnv)
    (joint_names : List String) (current_pos : List ℚ) (skip_planning : Bool)
    (traj_in traj_out : List TrajPoint) : Bool × List TrajPoint :=
  if traj_in = [] then (true, traj_in)
  else
    let joint_dim := (traj_in.headD default).positions.length
    if joint_dim ≠ joint_names.length then (false, traj_out)
    else if joint_dim ≠ current_pos.length then (false, traj_out)
    else if !skip_planning && cfg.planning_disabled then (false, traj_out)
    else if skip_planning then
      (true, postProcess cfg current_pos (skipBranch cfg current_pos traj_in))
    else
      match (computeApproach cfg env joint_names current_pos
          (traj_in.headD default).positions).2 with
      | none => (false, traj_out)
      | some approach =>
        if approach.points = [] then (true, postProcess cfg current_pos traj_in)
        else (true, postProcess cfg current_pos
            (combineTrajectories joint_names current_pos traj_in approach traj_out))

/-- Extended value modelling an IEEE-754 `double` where its special values
matter: a finite value (idealized as an exact rational), a signed infinity
(`pos = true` for `+∞`), or NaN.  Only the operations used by the
interpolation branch of `combineTrajectories` are defined; the special-value
propagation rules follow IEEE-754 exactly (finite-by-finite arithmetic is
idealized as exact, which is irrelevant to the non-finiteness facts proved
with this model). -/
inductive FVal
  | fin (q : ℚ)
  | inf (pos : Bool)
  | nan
deriving Repr, DecidableEq

/-- IEEE division of a finite `double` by a finite `double` (a zero divisor
behaves as `+0`): division by zero yields NaN for a zero numerator and a
signed infinity otherwise. -/
def fdiv (a b : ℚ) : FVal :=
  if b = 0 then (if a = 0 then FVal.nan else FVal.inf (decide (0 < a)))
  else FVal.fin (a / b)

/-- IEEE multiplication of an extended value by a finite `double`:
`±∞ * 0 = NaN`, `±∞ * t` keeps or flips the sign for `t ≠ 0`. -/
def FVal.mulQ : FVal → ℚ → FVal
  | FVal.fin a, t => FVal.fin (a * t)
  | FVal.inf s, t => if t = 0 then FVal.nan else FVal.inf (s == decide (0 < t))
  | FVal.nan, _ => FVal.nan

/-- IEEE addition of a finite `double` to an extended value. -/
def FVal.qadd (p : ℚ) : FVal → FVal
  | FVal.fin a => FVal.fin (p + a)
  | FVal.inf s => FVal.inf s
  | FVal.nan => FVal.nan

/-- Whether an extended value is a finite number (neither `±∞` nor NaN). -/
def FVal.isFinite : FVal → Bool
  | FVal.fin _ => true
  | _ => false

/-- A trajectory waypoint whose positions, velocities and accelerations are
extended `double` values (time offsets are `rclcpp::Duration` integers and
stay exact). -/
structure TrajPointF where
  positions : List FVal
  velocities : List FVal
  accelerations : List FVal
  time_from_start : ℚ
deriving Repr, DecidableEq, Inhabited

/-- Inject an exact waypoint into the extended-value representation. -/
def toF (p : TrajPoint) : TrajPointF :=
  ⟨p.positions.map FVal.fin, p.velocities.map FVal.fin,
   p.accelerations.map FVal.fin, p.time_from_start⟩

/-- One merged waypoint of `combineTrajectories` (lines 397-436) with the
`double` arithmetic of the interpolation branch refined to IEEE-754
extended values: identical to `mergedPoint` except that the unguarded
division `(p_max - p_min) / (t_max - t_min)` and the subsequent multiply
and add follow IEEE special-value rules. -/
def mergedPointF (joint_names : List String) (current_pos : List ℚ)
    (traj_in : List TrajPoint) (approach : JointTrajectory)
    (point_appr : TrajPoint) : TrajPointF :=
  let joint_dim := (traj_in.headD default).positions.length
  let has_velocities := !point_appr.velocities.isEmpty
  let has_accelerations := !point_appr.accelerations.isEmpty
  let t_max := (approach.points.getLastD default).time_from_start
  let posOf : ℕ → FVal := fun i =>
    match approach.joint_names.findIdx? (fun x => x == joint_names.getD i "") with
    | some approach_id => FVal.fin (point_appr.positions.getD approach_id 0)
    | none =>
      let p_min := current_pos.getD i 0
      let p_max := (traj_in.headD default).positions.getD i 0
      FVal.qadd p_min
        ((fdiv (p_max - p_min) (t_max - 0)).mulQ point_appr.time_from_start)
  let velOf : ℕ → FVal := fun i =>
    match approach.joint_names.findIdx? (fun x => x == joint_names.getD i "") with
    | some approach_id => FVal.fin (point_appr.velocities.getD approach_id 0)
    | none =>
      let p_min := current_pos.getD i 0
      let p_max := (traj_in.headD default).positions.getD i 0
      fdiv (p_max - p_min) (t_max - 0)
  let accOf : ℕ → FVal := fun i =>
    match approach.joint_names.findIdx? (fun x => x == joint_names.getD i "") with
    | some approach_id => FVal.fin (point_appr.accelerations.getD approach_id 0)
    | none => FVal.fin 0
  { positions := (List.range joint_dim).map posOf
    velocities := if has_velocities then (List.range joint_dim).map velOf else []
    accelerations := if has_accelerations then (List.range joint_dim).map accOf else []
    time_from_start := point_appr.time_from_start }

/-- `combineTrajectories` with the merged waypoints carried as extended
`double` values: same control flow as `combineTrajectories`, no guard and
no rejection path. -/
def combineTrajectoriesF (joint_names : List String) (current_pos : List ℚ)
    (traj_in : List TrajPoint) (approach : JointTrajectory)
    (traj_out : List TrajPointF) : List TrajPointF :=
  let out1 := traj_out ++
    approach.points.map (mergedPointF joint_names current_pos traj_in approach)
  if traj_in.length = 1 then out1
  else
    let offset := (out1.getLastD default).time_from_start
    out1.dropLast ++
      traj_in.map fun p => { toF p with time_from_start := p.time_from_start + offset }

/-- Spec-side cut of a candidate list at the first success: the attempted
prefix of the registry scan, including the first group for which `p` holds. -/
def takeThroughFirst {α : Type} (p : α → Bool) : List α → List α
  | [] => []
  | a :: rest => if p a then [a] else a :: takeThroughFirst p rest

/-- Whether a `planApproach` invocation on group `g` succeeds. -/
def planSucceeds (env : PlannerEnv) (joint_names : List String)
    (joint_values : List ℚ) (g : MoveGroup) : Bool :=
  (planApproach env joint_names joint_values g).2.isSome

/-- Order-independent specification of the maximum absolute per-joint
displacement used by the skip-planning reach time. -/
def dmaxSpec (curr_pos goal_pos : List ℚ) : ℚ :=
  ((curr_pos.zip goal_pos).map fun p => |p.2 - p.1|).foldr max 0

end PlayMotion

namespace PlayMotion

lemma getD_map_range {α : Type} (n i : ℕ) (f : ℕ → α) (d : α) (h : i < n) :
    ((List.range n).map f).getD i d = f i := by
  rw [List.getD_eq_getElem?_getD, List.getElem?_map, List.getElem?_range h]
  rfl

lemma foldr_max_comm (l : List ℚ) (a x : ℚ) :
    l.foldr max (max a x) = max x (l.foldr max a) := by
  induction l with
  | nil => simp [max_comm]
  | cons y l ih => simp only [List.foldr_cons, ih]; rw [max_left_comm]

lemma foldl_max_eq_foldr (l : List ℚ) (a : ℚ) : l.foldl max a = l.foldr max a := by
  induction l generalizing a with
  | nil => rfl
  | cons x l ih => simp only [List.foldl_cons, List.foldr_cons, ih]
                   rw [foldr_max_comm]

lemma if_gt_eq_max (d a : ℚ) : (if d > a then d else a) = max a d := by
  rcases le_or_lt d a with h | h
  · rw [if_neg (not_lt.mpr h), max_eq_left h]
  · rw [if_pos h, max_eq_right h.le]

lemma noPlanningReachTime_eq (cfg : ApproachPlannerConfig)
    (curr_pos goal_pos : List ℚ) (hlen : curr_pos.length = goal_pos.length) :
    noPlanningReachTime cfg curr_pos goal_pos =
      max (dmaxSpec curr_pos goal_pos / cfg.skip_planning_vel)
        cfg.skip_planning_min_dur := by
  unfold noPlanningReachTime dmaxSpec
  have hfun : (fun (dmax : ℚ) (i : ℕ) =>
      let d := |goal_pos.getD i 0 - curr_pos.getD i 0|
      if d > dmax then d else dmax) =
      fun dmax i => max dmax |goal_pos.getD i 0 - curr_pos.getD i 0| := by
    funext dmax i
    exact if_gt_eq_max _ _
  have hmap : (List.range curr_pos.length).map
      (fun i => |goal_pos.getD i 0 - curr_pos.getD i 0|) =
      (curr_pos.zip goal_pos).map fun p => |p.2 - p.1| := by
    apply List.ext_getElem
    · simp [hlen]
    · intro i h1 h2
      have hic : i < curr_pos.length := by simpa using h1
      have hig : i < goal_pos.length := by omega
      simp only [List.getElem_map, List.getElem_range, List.getElem_zip]
      rw [List.getD_eq_getElem _ _ hig, List.getD_eq_getElem _ _ hic]
  rw [hfun, ← List.foldl_map, hmap, foldl_max_eq_foldr]

/-- C5: in every merged point built by `combineTrajectories`, a joint absent
from the approach trajectory's own joint set gets position
`current + ((target - current) / T) * t` (with `T` the approach's final time
offset and `t` the approach point's time offset), velocity — when the
approach point carries velocities — the constant slope
`(target - current) / T`, and acceleration — when carried — `0`. -/
theorem mergedPoint_interpolation (joint_names : List String)
    (current_pos : List ℚ) (traj_in : List TrajPoint)
    (approach : JointTrajectory) (point_appr : TrajPoint) (i : ℕ)
    (hpa : point_appr ∈ approach.points)
    (hi : i < (traj_in.headD default).positions.length)
    (hni : joint_names.getD i "" ∉ approach.joint_names)
    (hT : (approach.points.getLastD default).time_from_start ≠ 0) :
    ((mergedPoint joint_names current_pos traj_in approach point_appr).positions.getD i 0 =
      current_pos.getD i 0 +
        ((traj_in.headD default).positions.getD i 0 - current_pos.getD i 0) /
          (approach.points.getLastD default).time_from_start *
          point_appr.time_from_start) ∧
    (point_appr.velocities ≠ [] →
      (mergedPoint joint_names current_pos traj_in approach point_appr).velocities.getD i 0 =
        ((traj_in.headD default).positions.getD i 0 - current_pos.getD i 0) /
          (approach.points.getLastD default).time_from_start) ∧
    (point_appr.accelerations ≠ [] →
      (mergedPoint joint_names current_pos traj_in approach point_appr).accelerations.getD i 0 =
        0) := by
  have hfind : approach.joint_names.findIdx?
      (fun x => x == joint_names.getD i "") = none := by
    rw [List.findIdx?_eq_none_iff]
    intro x hx
    simp only [beq_eq_false_iff_ne]
    intro hEq
    exact hni (hEq ▸ hx)
  refine ⟨?_, ?_, ?_⟩
  · simp only [mergedPoint]
    rw [getD_map_range _ _ _ _ hi, hfind]
    rw [sub_zero]
  · intro hv
    have hv2 : point_appr.velocities.isEmpty = false := by
      simpa [List.isEmpty_iff] using hv
    simp only [mergedPoint, hv2]
    rw [if_pos (by rfl), getD_map_range _ _ _ _ hi, hfind]
    rw [sub_zero]
  · intro ha
    have ha2 : point_appr.accelerations.isEmpty = false := by
      simpa [List.isEmpty_iff] using ha
    simp only [mergedPoint, ha2]
    rw [if_pos (by rfl), getD_map_range _ _ _ _ hi, hfind]

/-- C5 witness (the spec's example): a joint outside the approach group with
current position `0` and target `2` over an approach of final time offset
`4` gets position `1` and velocity `1/2` at the approach point with time
offset `2`. -/
theorem mergedPoint_interpolation_witness :
    ((mergedPoint ["a", "b"] [0, 0] [⟨[0, 2], [], [], 5⟩]
        ⟨["a"], [⟨[0], [1], [], 0⟩, ⟨[0], [1], [], 2⟩, ⟨[0], [1], [], 4⟩]⟩
        ⟨[0], [1], [], 2⟩).positions.getD 1 0 = 1) ∧
    ((mergedPoint ["a", "b"] [0, 0] [⟨[0, 2], [], [], 5⟩]
        ⟨["a"], [⟨[0], [1], [], 0⟩, ⟨[0], [1], [], 2⟩, ⟨[0], [1], [], 4⟩]⟩
        ⟨[0], [1], [], 2⟩).velocities.getD 1 0 = 1/2) := by
  have h := mergedPoint_interpolation ["a", "b"] [0, 0] [⟨[0, 2], [], [], 5⟩]
    ⟨["a"], [⟨[0], [1], [], 0⟩, ⟨[0], [1], [], 2⟩, ⟨[0], [1], [], 4⟩]⟩
    ⟨[0], [1], [], 2⟩ 1 (List.mem_cons_of_mem _ (List.mem_cons_self _ _))
    (by decide) (by decide) (by norm_num [List.getLastD])
  exact ⟨h.1.trans (by norm_num [List.getD, List.getLastD]),
    (h.2.1 (by decide)).trans (by norm_num [List.getD, List.getLastD])⟩

/-- C6: a `prependApproach` call with `skip_planning = true` that passes
validation reduces to the skip branch followed by post-processing; the
no-planning reach time equals
`max(max_i |goal_i - current_i| / skip_planning_vel, skip_planning_min_dur)`;
when the input's first time offset is exactly zero that value is added to
every waypoint's time offset in this branch, and when it is nonzero the
branch adds no offset. -/
theorem prependApproach_skip_timing (cfg : ApproachPlannerConfig)
    (env : PlannerEnv) (joint_names : List String) (current_pos : List ℚ)
    (traj_in traj_out : List TrajPoint)
    (htin : traj_in ≠ [])
    (hlen1 : (traj_in.headD default).positions.length = joint_names.length)
    (hlen2 : (traj_in.headD default).positions.length = current_pos.length) :
    (prependApproach cfg env joint_names current_pos true traj_in traj_out =
      (true, postProcess cfg current_pos (skipBranch cfg current_pos traj_in))) ∧
    (noPlanningReachTime cfg current_pos (traj_in.headD default).positions =
      max (dmaxSpec current_pos (traj_in.headD default).positions /
        cfg.skip_planning_vel) cfg.skip_planning_min_dur) ∧
    ((traj_in.headD default).time_from_start = 0 →
      skipBranch cfg current_pos traj_in =
        addOffset (noPlanningReachTime cfg current_pos
          (traj_in.headD default).positions) traj_in) ∧
    ((traj_in.headD default).time_from_start ≠ 0 →
      skipBranch cfg current_pos traj_in = traj_in) := by
  refine ⟨?_, ?_, ?_, ?_⟩
  · unfold prependApproach
    rw [if_neg htin]
    dsimp only
    rw [if_neg (not_ne_iff.mpr hlen1), if_neg (not_ne_iff.mpr hlen2)]
    rfl
  · exact noPlanningReachTime_eq cfg _ _ hlen2.symm
  · intro h0
    unfold skipBranch
    rw [if_pos h0]
  · intro h0
    unfold skipBranch
    rw [if_neg h0]

lemma includes_eq_true_iff (l1 : List String) : ∀ (l2 : List String),
    l1.Sorted (· < ·) → l2.Sorted (· < ·) →
    (includes l1 l2 = true ↔ ∀ x ∈ l2, x ∈ l1) := by
  induction l1 with
  | nil =>
    intro l2 _ _
    cases l2 with
    | nil => simp [includes]
    | cons b bs =>
      simp only [includes]
      constructor
      · intro h
        simp at h
      · intro h
        exact absurd (h b (List.mem_cons_self b bs)) (List.not_mem_nil b)
  | cons a as ih =>
    intro l2 h1 h2
    cases l2 with
    | nil => simp [includes]
    | cons b bs =>
      have h1h : ∀ x ∈ as, a < x := (List.sorted_cons.mp h1).1
      have h1t : as.Sorted (· < ·) := (List.sorted_cons.mp h1).2
      have h2h : ∀ x ∈ bs, b < x := (List.sorted_cons.mp h2).1
      have h2t : bs.Sorted (· < ·) := (List.sorted_cons.mp h2).2
      simp only [includes]
      by_cases hba : b < a
      · rw [if_pos hba]
        constructor
        · intro h
          exact absurd h (by simp)
        · intro h
          rcases List.mem_cons.mp (h b (List.mem_cons_self b bs)) with hEq | hmem
          · rw [hEq] at hba
            exact absurd hba (lt_irrefl a)
          · exact absurd (h1h b hmem) (not_lt.mpr hba.le)
      · rw [if_neg hba]
        by_cases hab : a < b
        · rw [if_pos hab, ih (b :: bs) h1t h2]
          constructor
          · intro h x hx
            exact List.mem_cons_of_mem a (h x hx)
          · intro h x hx
            rcases List.mem_cons.mp (h x hx) with hEq | hmem
            · exfalso
              have hbx : b ≤ x := by
                rcases List.mem_cons.mp hx with hxb | hxbs
                · rw [hxb]
                · exact (h2h x hxbs).le
              rw [hEq] at hbx
              exact absurd hab (not_lt.mpr hbx)
            · exact hmem
        · have hid : a = b := le_antisymm (not_lt.mp hba) (not_lt.mp hab)
          rw [if_neg hab, ih bs h1t h2t]
          constructor
          · intro h x hx
            rcases List.mem_cons.mp hx with hEq | hmem
            · rw [hEq, ← hid]
              exact List.mem_cons_self a as
            · exact List.mem_cons_of_mem a (h x hmem)
          · intro h x hx
            rcases List.mem_cons.mp (h x (List.mem_cons_of_mem b hx)) with hEq | hmem
            · exfalso
              have hbx : b < x := h2h x hx
              rw [hEq, hid] at hbx
              exact absurd hbx (lt_irrefl b)
            · exact hmem

lemma mem_sortJointNames {x : String} {l : List String} :
    x ∈ sortJointNames l ↔ x ∈ l :=
  (List.perm_insertionSort _ l).mem_iff

lemma sortJointNames_sorted_lt (l : List String) (hl : l.Nodup) :
    (sortJointNames l).Sorted (· < ·) := by
  have hs : (sortJointNames l).Sorted (· ≤ ·) := List.sorted_insertionSort _ l
  have hn : (sortJointNames l).Nodup := (List.perm_insertionSort _ l).nodup_iff.mpr hl
  exact hs.lt_of_le hn

lemma getValidMoveGroups_eq_filter (cfg : ApproachPlannerConfig)
    (min_group max_group : List String)
    (hmin : min_group.Nodup) (hmax : max_group.Nodup)
    (hg : ∀ g ∈ cfg.planning_data, g.sorted_joint_names.Sorted (· < ·)) :
    getValidMoveGroups cfg min_group max_group =
      cfg.planning_data.filter fun g =>
        (min_group.all fun x => decide (x ∈ g.sorted_joint_names)) &&
        (g.sorted_joint_names.all fun x => decide (x ∈ max_group)) := by
  unfold getValidMoveGroups
  apply List.filter_congr
  intro g hgmem
  have hgs := hg g hgmem
  have hmin_s := sortJointNames_sorted_lt min_group hmin
  have hmax_s := sortJointNames_sorted_lt max_group hmax
  have h1 : includes g.sorted_joint_names (sortJointNames min_group) =
      (min_group.all fun x => decide (x ∈ g.sorted_joint_names)) := by
    apply Bool.eq_iff_iff.mpr
    rw [includes_eq_true_iff _ _ hgs hmin_s, List.all_eq_true]
    constructor
    · intro h x hx
      exact decide_eq_true (h x (mem_sortJointNames.mpr hx))
    · intro h x hx
      exact of_decide_eq_true (h x (mem_sortJointNames.mp hx))
  have h2 : includes (sortJointNames max_group) g.sorted_joint_names =
      (g.sorted_joint_names.all fun x => decide (x ∈ max_group)) := by
    apply Bool.eq_iff_iff.mpr
    rw [includes_eq_true_iff _ _ hmax_s hgs, List.all_eq_true]
    constructor
    · intro h x hx
      exact decide_eq_true (mem_sortJointNames.mp (h x hx))
    · intro h x hx
      exact mem_sortJointNames.mpr (of_decide_eq_true (h x hx))
  rw [h1, h2]

lemma planningSets_max_sublist (cfg : ApproachPlannerConfig) :
    ∀ l : List (String × ℚ × ℚ), (planningSets cfg l).1.Sublist (l.map Prod.fst)
  | [] => by simp [planningSets]
  | (n, c, g) :: rest => by
    simp only [planningSets, List.map_cons]
    split
    · exact (planningSets_max_sublist cfg rest).cons₂ n
    · exact (planningSets_max_sublist cfg rest).cons n

lemma planningSets_min_sublist_max (cfg : ApproachPlannerConfig) :
    ∀ l : List (String × ℚ × ℚ),
      (planningSets cfg l).2.2.Sublist (planningSets cfg l).1
  | [] => by simp [planningSets]
  | (n, c, g) :: rest => by
    simp only [planningSets]
    split
    · dsimp only
      split
      · exact (planningSets_min_sublist_max cfg rest).cons₂ n
      · exact (planningSets_min_sublist_max cfg rest).cons n
    · exact planningSets_min_sublist_max cfg rest

lemma map_fst_zip_sublist {α β : Type} :
    ∀ (l1 : List α) (l2 : List β), ((l1.zip l2).map Prod.fst).Sublist l1
  | [], _ => by simp
  | _ :: _, [] => by simp
  | a :: l1, b :: l2 => by
    simp only [List.zip_cons_cons, List.map_cons]
    exact (map_fst_zip_sublist l1 l2).cons₂ a

lemma maxPlanningGroup_sublist (cfg : ApproachPlannerConfig)
    (jn : List String) (cur goal : List ℚ) :
    (maxPlanningGroup cfg jn cur goal).Sublist jn := by
  unfold maxPlanningGroup zip3
  exact (planningSets_max_sublist cfg _).trans (map_fst_zip_sublist _ _)

lemma tryGroups_attempted (env : PlannerEnv) (joint_names : List String)
    (joint_values : List ℚ) (gs : List MoveGroup) :
    (tryGroups env joint_names joint_values gs).1.map Prod.fst =
      (takeThroughFirst (planSucceeds env joint_names joint_values) gs).map
        MoveGroup.name := by
  induction gs with
  | nil => rfl
  | cons g rest ih =>
    simp only [tryGroups, takeThroughFirst, planSucceeds]
    by_cases h : (planApproach env joint_names joint_values g).2.isSome
    · rw [if_pos h, if_pos h]
      simp
    · rw [if_neg h, if_neg h]
      simp [ih]

/-- C4: when `min_group` is non-empty, the candidate groups are exactly the
registered groups `G` with `min_group ⊆ G ⊆ max_group` — the sorted
`std::includes` tests coincide with order-independent set inclusion on
joint names — and `computeApproach` attempts exactly those candidates in
registry insertion order, stopping at the first successful planner
invocation; a registered group not satisfying the inclusion is never
attempted. -/
theorem computeApproach_candidate_groups (cfg : ApproachPlannerConfig)
    (env : PlannerEnv) (joint_names : List String) (current_pos goal_pos : List ℚ)
    (hnd : joint_names.Nodup)
    (hg : ∀ g ∈ cfg.planning_data, g.sorted_joint_names.Sorted (· < ·))
    (hne : minPlanningGroup cfg joint_names current_pos goal_pos ≠ []) :
    (getValidMoveGroups cfg
        (minPlanningGroup cfg joint_names current_pos goal_pos)
        (maxPlanningGroup cfg joint_names current_pos goal_pos) =
      cfg.planning_data.filter fun g =>
        ((minPlanningGroup cfg joint_names current_pos goal_pos).all
          fun x => decide (x ∈ g.sorted_joint_names)) &&
        (g.sorted_joint_names.all
          fun x => decide (x ∈ maxPlanningGroup cfg joint_names current_pos goal_pos))) ∧
    (computeApproach cfg env joint_names current_pos goal_pos).1.map Prod.fst =
      (takeThroughFirst
        (planSucceeds env (maxPlanningGroup cfg joint_names current_pos goal_pos)
          (maxPlanningValues cfg joint_names current_pos goal_pos))
        (getValidMoveGroups cfg
          (minPlanningGroup cfg joint_names current_pos goal_pos)
          (maxPlanningGroup cfg joint_names current_pos goal_pos))).map
        MoveGroup.name := by
  have hmax_nd : (maxPlanningGroup cfg joint_names current_pos goal_pos).Nodup :=
    (maxPlanningGroup_sublist cfg joint_names current_pos goal_pos).nodup hnd
  have hmin_nd : (minPlanningGroup cfg joint_names current_pos goal_pos).Nodup :=
    (planningSets_min_sublist_max cfg _).nodup hmax_nd
  constructor
  · exact getValidMoveGroups_eq_filter cfg _ _ hmin_nd hmax_nd hg
  · have hne2 : (planningSets cfg (zip3 joint_names current_pos goal_pos)).2.2 ≠ [] := hne
    unfold computeApproach
    dsimp only
    rw [if_neg hne2]
    by_cases hval : getValidMoveGroups cfg
        (planningSets cfg (zip3 joint_names current_pos goal_pos)).2.2
        (planningSets cfg (zip3 joint_names current_pos goal_pos)).1 = []
    · have hval2 : getValidMoveGroups cfg
          (minPlanningGroup cfg joint_names current_pos goal_pos)
          (maxPlanningGroup cfg joint_names current_pos goal_pos) = [] := hval
      rw [if_pos hval, hval2]
      rfl
    · rw [if_neg hval]
      exact tryGroups_attempted env _ _ _

/-- Concrete registry for exercising the candidate-group selection: groups
`ga = [j1, j2]`, `gb = [j2, j3]`, `gc = [j1, j2, j3]`, `gd = [j1, j3]`. -/
def cfgC4 : ApproachPlannerConfig :=
  ⟨1/1000, 1/2, 0, false, [],
    [⟨"ga", ["j1", "j2"]⟩, ⟨"gb", ["j2", "j3"]⟩,
     ⟨"gc", ["j1", "j2", "j3"]⟩, ⟨"gd", ["j1", "j3"]⟩]⟩

/-- Planner oracle for the candidate-group example: only group `gb`
produces a plan. -/
def envC4 : PlannerEnv :=
  ⟨fun _ _ _ => true,
   fun n => if n == "gb" then some ⟨["j2"], [⟨[1], [], [], 1⟩]⟩ else none⟩

/-- C4 witness: with `min_group = [j2]`, `max_group = [j1, j2, j3]` and the
registry above, groups `ga`, `gb`, `gc` qualify (`gd` does not), they are
scanned in registry order, and the scan stops at `gb`, the first success:
the attempted groups are exactly `ga` then `gb`. -/
theorem computeApproach_candidate_groups_witness :
    (computeApproach cfgC4 envC4 ["j1", "j2", "j3"] [0, 0, 0] [0, 1, 0]).1.map
      Prod.fst = ["ga", "gb"] := by
  have h := computeApproach_candidate_groups cfgC4 envC4 ["j1", "j2", "j3"]
    [0, 0, 0] [0, 1, 0] (by decide)
    (by simp +decide [cfgC4, List.forall_mem_cons, List.sorted_cons])
    (by norm_num [minPlanningGroup, planningSets, zip3, isPlanningJoint, cfgC4])
  rw [h.2]
  norm_num +decide [cfgC4, envC4, minPlanningGroup, maxPlanningGroup, maxPlanningValues,
    planningSets, zip3, isPlanningJoint, getValidMoveGroups, sortJointNames,
    includes, takeThroughFirst, planSucceeds, planApproach, setGoalsLoop,
    List.insertionSort, List.orderedInsert]

/-- The controlled joints of the registered group named `gname`. -/
def groupJoints (cfg : ApproachPlannerConfig) (gname : String) : List String :=
  ((cfg.planning_data.find? fun g => g.name == gname).map
    MoveGroup.sorted_joint_names).getD []

/-- Concrete configuration for the goal-restriction claim: one registered
group `g1` controlling only `j1`, no excluded joints. -/
def cfgC1 : ApproachPlannerConfig :=
  ⟨1/1000, 1/2, 0, false, [], [⟨"g1", ["j1"]⟩]⟩

/-- Planner oracle for the goal-restriction claim: every goal-set call
succeeds and every group returns a one-point plan. -/
def envC1 : PlannerEnv :=
  ⟨fun _ _ _ => true, fun _ => some ⟨["j1"], [⟨[1], [], [], 1⟩]⟩⟩

lemma computeApproach_cfgC1_eval :
    (computeApproach cfgC1 envC1 ["j1", "j2"] [0, 0] [1, 0]).1 =
      [("g1", [("j1", (1 : ℚ)), ("j2", 0)])] := by
  norm_num +decide [cfgC1, envC1, computeApproach, planningSets, zip3,
    isPlanningJoint, getValidMoveGroups, sortJointNames, includes, tryGroups,
    planApproach, setGoalsLoop, List.insertionSort, List.orderedInsert]

/-- C1 counterexample: with joints `[j1, j2]`, current `[0, 0]`, goal
`[1, 0]` and the single registered group `g1 = [j1]` (which is a valid
candidate since `min_group = [j1] ⊆ g1 ⊆ [j1, j2] = max_group`), the
attempted planner invocation issues a goal-set call for joint `j2` with
`max_group`'s value `0`, although `j2` is outside the group's joint set:
the goals are not restricted to the candidate group. -/
theorem computeApproach_goal_restriction_counterexample :
    ¬ (∀ gc ∈ (computeApproach cfgC1 envC1 ["j1", "j2"] [0, 0] [1, 0]).1,
        ∀ c ∈ gc.2, c.1 ∈ groupJoints cfgC1 gc.1) := by
  intro hAll
  have hmem : ("g1", [("j1", (1 : ℚ)), ("j2", 0)]) ∈
      (computeApproach cfgC1 envC1 ["j1", "j2"] [0, 0] [1, 0]).1 := by
    rw [computeApproach_cfgC1_eval]
    exact List.mem_singleton_self _
  have h2 := hAll _ hmem ("j2", 0) (by simp)
  simp [groupJoints, cfgC1, List.find?] at h2

lemma setGoalsLoop_all_ok (env : PlannerEnv) (gname : String)
    (hok : ∀ g n v, env.setJointValueTargetOk g n v = true) :
    ∀ l : List (String × ℚ), setGoalsLoop env gname l = (l, true) := by
  intro l
  induction l with
  | nil => rfl
  | cons p rest ih =>
    obtain ⟨n, v⟩ := p
    simp only [setGoalsLoop, hok, if_true, ih]

lemma planApproach_calls (env : PlannerEnv) (a : List String) (b : List ℚ)
    (g : MoveGroup)
    (hok : ∀ g n v, env.setJointValueTargetOk g n v = true) :
    (planApproach env a b g).1 = a.zip b := by
  unfold planApproach
  rw [setGoalsLoop_all_ok env g.name hok]
  dsimp only
  cases hp : env.planResult g.name with
  | none => simp
  | some plan => by_cases hpts : plan.points = [] <;> simp [hpts]

lemma tryGroups_calls (env : PlannerEnv) (a : List String) (b : List ℚ)
    (hok : ∀ g n v, env.setJointValueTargetOk g n v = true) :
    ∀ gs : List MoveGroup, ∀ gc ∈ (tryGroups env a b gs).1, gc.2 = a.zip b := by
  intro gs
  induction gs with
  | nil =>
    intro gc h
    simp [tryGroups] at h
  | cons g rest ih =>
    intro gc hgc
    simp only [tryGroups] at hgc
    by_cases h : (planApproach env a b g).2.isSome
    · rw [if_pos h] at hgc
      rcases List.mem_singleton.mp hgc with rfl
      exact planApproach_calls env a b g hok
    · rw [if_neg h] at hgc
      rcases List.mem_cons.mp hgc with rfl | hmem
      · exact planApproach_calls env a b g hok
      · exact ih gc hmem

/-- C1 amended: for every candidate group attempted by `computeApproach`
(when every `setJointValueTarget` call succeeds), the planner invocation
sets per-joint goal targets for all of `max_group`'s joints with
`max_group`'s values — not restricted to the candidate group's own joint
set, so goals are attempted even for joints outside the group. -/
theorem computeApproach_goals_full_max (cfg : ApproachPlannerConfig)
    (env : PlannerEnv) (joint_names : List String)
    (current_pos goal_pos : List ℚ)
    (hok : ∀ g n v, env.setJointValueTargetOk g n v = true) :
    ∀ gc ∈ (computeApproach cfg env joint_names current_pos goal_pos).1,
      gc.2 = (maxPlanningGroup cfg joint_names current_pos goal_pos).zip
        (maxPlanningValues cfg joint_names current_pos goal_pos) := by
  intro gc hgc
  unfold computeApproach at hgc
  dsimp only at hgc
  split at hgc
  · simp at hgc
  · split at hgc
    · simp at hgc
    · exact tryGroups_calls env _ _ hok _ gc hgc

/-- C1 witness (for the amended claim): in the concrete scenario the single
attempted group `g1` received goal-set calls for the full max group,
`[(j1, 1), (j2, 0)]`, including joint `j2` outside its own joint set. -/
theorem computeApproach_goals_full_max_witness :
    [("j1", (1 : ℚ)), ("j2", (0 : ℚ))] =
      (maxPlanningGroup cfgC1 ["j1", "j2"] [0, 0] [1, 0]).zip
        (maxPlanningValues cfgC1 ["j1", "j2"] [0, 0] [1, 0]) :=
  computeApproach_goals_full_max cfgC1 envC1 ["j1", "j2"] [0, 0] [1, 0]
    (fun _ _ _ => rfl) ("g1", [("j1", 1), ("j2", 0)])
    (by rw [computeApproach_cfgC1_eval]; exact List.mem_singleton_self _)

lemma noPlanningReachTime_nonneg (cfg : ApproachPlannerConfig)
    (hdur : 0 ≤ cfg.skip_planning_min_dur) (cur goal : List ℚ) :
    0 ≤ noPlanningReachTime cfg cur goal :=
  le_trans hdur (le_max_right _ _)

lemma postProcess_head_pos (cfg : ApproachPlannerConfig) (cur : List ℚ)
    (t : List TrajPoint) (ht : t ≠ [])
    (h0 : 0 ≤ (t.headD default).time_from_start)
    (hr : ∀ goal, 0 ≤ noPlanningReachTime cfg cur goal) :
    0 < ((postProcess cfg cur t).headD default).time_from_start := by
  obtain ⟨p, rest, rfl⟩ := List.exists_cons_of_ne_nil ht
  simp only [List.headD_cons] at h0
  simp only [postProcess]
  by_cases hp : p.time_from_start = 0
  · rw [if_pos hp]
    by_cases hgt : noPlanningReachTime cfg cur p.positions > 1/1000
    · rw [if_pos hgt]
      simp only [addOffset, List.map_cons]
      have hne : p.time_from_start + noPlanningReachTime cfg cur p.positions ≠ 0 := by
        rw [hp, zero_add]
        exact ne_of_gt (lt_trans (by norm_num) hgt)
      rw [if_neg hne]
      simp only [List.headD_cons]
      rw [hp, zero_add]
      exact lt_trans (by norm_num) hgt
    · rw [if_neg hgt]
      dsimp only
      rw [if_pos hp]
      norm_num
  · rw [if_neg hp]
    dsimp only
    rw [if_neg hp]
    simp only [List.headD_cons]
    exact lt_of_le_of_ne h0 (Ne.symm hp)

lemma skipBranch_ne_nil (cfg : ApproachPlannerConfig) (cur : List ℚ)
    (tin : List TrajPoint) (htin : tin ≠ []) :
    skipBranch cfg cur tin ≠ [] := by
  unfold skipBranch
  split
  · simpa [addOffset] using htin
  · exact htin

lemma skipBranch_head_nonneg (cfg : ApproachPlannerConfig) (cur : List ℚ)
    (tin : List TrajPoint) (htin : tin ≠ [])
    (hnn : ∀ p ∈ tin, 0 ≤ p.time_from_start)
    (hr : ∀ goal, 0 ≤ noPlanningReachTime cfg cur goal) :
    0 ≤ ((skipBranch cfg cur tin).headD default).time_from_start := by
  obtain ⟨p, rest, rfl⟩ := List.exists_cons_of_ne_nil htin
  unfold skipBranch
  split
  · simp only [addOffset, List.map_cons, List.headD_cons]
    exact add_nonneg (hnn p (List.mem_cons_self p rest)) (hr _)
  · simp only [List.headD_cons]
    exact hnn p (List.mem_cons_self p rest)

lemma planApproach_some (env : PlannerEnv) (a : List String) (b : List ℚ)
    (g : MoveGroup) (appr : JointTrajectory)
    (h : (planApproach env a b g).2 = some appr) :
    env.planResult g.name = some appr := by
  unfold planApproach at h
  dsimp only at h
  by_cases hb : (setGoalsLoop env g.name (a.zip b)).2 = true
  · rw [if_pos hb] at h
    cases hp : env.planResult g.name with
    | none =>
      rw [hp] at h
      simp at h
    | some plan =>
      rw [hp] at h
      dsimp only at h
      by_cases hpts : plan.points = []
      · rw [if_pos hpts] at h
        simp at h
      · rw [if_neg hpts] at h
        simp only [Option.some.injEq] at h
        rw [h]
  · rw [if_neg hb] at h
    simp at h

lemma tryGroups_planResult (env : PlannerEnv) (a : List String) (b : List ℚ) :
    ∀ (gs : List MoveGroup) (appr : JointTrajectory),
      (tryGroups env a b gs).2 = some appr →
      ∃ gname, env.planResult gname = some appr := by
  intro gs
  induction gs with
  | nil =>
    intro appr h
    simp [tryGroups] at h
  | cons g rest ih =>
    intro appr h
    simp only [tryGroups] at h
    by_cases hs : (planApproach env a b g).2.isSome
    · rw [if_pos hs] at h
      exact ⟨g.name, planApproach_some env a b g appr h⟩
    · rw [if_neg hs] at h
      exact ih appr h

lemma computeApproach_points_source (cfg : ApproachPlannerConfig)
    (env : PlannerEnv) (jn : List String) (cur goal : List ℚ)
    (appr : JointTrajectory)
    (h : (computeApproach cfg env jn cur goal).2 = some appr) :
    appr.points = [] ∨ ∃ gname, env.planResult gname = some appr := by
  unfold computeApproach at h
  dsimp only at h
  split at h
  · left
    simp only [Option.some.injEq] at h
    rw [← h]
  · split at h
    · simp at h
    · right
      exact tryGroups_planResult env _ _ _ appr h

lemma mergedPoint_time (joint_names : List String) (current_pos : List ℚ)
    (traj_in : List TrajPoint) (approach : JointTrajectory)
    (point_appr : TrajPoint) :
    (mergedPoint joint_names current_pos traj_in approach
      point_appr).time_from_start = point_appr.time_from_start := rfl

lemma getLastD_time_nonneg (l : List TrajPoint)
    (h : ∀ q ∈ l, 0 ≤ q.time_from_start) :
    0 ≤ (l.getLastD default).time_from_start := by
  cases hl : l with
  | nil => norm_num [default, List.getLastD]
  | cons a as =>
    have hne : a :: as ≠ [] := List.cons_ne_nil a as
    rw [List.getLastD_eq_getLast?, List.getLast?_eq_getLast _ hne]
    exact h _ (hl ▸ List.getLast_mem hne)

lemma combineTrajectories_times_nonneg (joint_names : List String)
    (current_pos : List ℚ) (traj_in : List TrajPoint)
    (approach : JointTrajectory)
    (htin : ∀ p ∈ traj_in, 0 ≤ p.time_from_start)
    (happr : ∀ p ∈ approach.points, 0 ≤ p.time_from_start) :
    ∀ q ∈ combineTrajectories joint_names current_pos traj_in approach [],
      0 ≤ q.time_from_start := by
  intro q hq
  have hMtimes : ∀ r ∈ approach.points.map
      (mergedPoint joint_names current_pos traj_in approach),
      0 ≤ r.time_from_start := by
    intro r hrM
    obtain ⟨pa, hpa, rfl⟩ := List.mem_map.mp hrM
    rw [mergedPoint_time]
    exact happr pa hpa
  unfold combineTrajectories at hq
  dsimp only at hq
  rw [List.nil_append] at hq
  split at hq
  · exact hMtimes q hq
  · rcases List.mem_append.mp hq with h1 | h2
    · exact hMtimes q ((List.dropLast_sublist _).subset h1)
    · obtain ⟨p, hp, rfl⟩ := List.mem_map.mp h2
      dsimp only
      exact add_nonneg (htin p hp) (getLastD_time_nonneg _ hMtimes)

lemma combineTrajectories_ne_nil (joint_names : List String)
    (current_pos : List ℚ) (traj_in : List TrajPoint)
    (approach : JointTrajectory)
    (htin : traj_in ≠ []) (happr : approach.points ≠ []) :
    combineTrajectories joint_names current_pos traj_in approach [] ≠ [] := by
  unfold combineTrajectories
  dsimp only
  rw [List.nil_append]
  split
  · simpa using happr
  · intro h
    rcases List.append_eq_nil.mp h with ⟨h1, h2⟩
    exact htin (List.map_eq_nil_iff.mp h2)

lemma headD_time_nonneg (l : List TrajPoint)
    (h : ∀ q ∈ l, 0 ≤ q.time_from_start) :
    0 ≤ (l.headD default).time_from_start := by
  cases l with
  | nil => norm_num [default, List.headD]
  | cons a as => exact h a (List.mem_cons_self a as)

/-- C3: every successful `prependApproach` call (on an empty initial output
vector) with a non-empty input trajectory whose points have non-negative
time offsets yields an output whose first time offset is strictly positive
(the planner collaborator is assumed to return points with non-negative
time offsets, and the configured skip-planning minimum duration to be
non-negative); when steps 4-5 of the orchestration leave it at exactly
zero, it is forced to the epsilon value `1e-3`. -/
theorem prependApproach_first_time_pos (cfg : ApproachPlannerConfig)
    (env : PlannerEnv) (joint_names : List String) (current_pos : List ℚ)
    (skip_planning : Bool) (traj_in : List TrajPoint)
    (htin : traj_in ≠ [])
    (hnn : ∀ p ∈ traj_in, 0 ≤ p.time_from_start)
    (henv : ∀ gname t, env.planResult gname = some t →
      ∀ p ∈ t.points, 0 ≤ p.time_from_start)
    (hdur : 0 ≤ cfg.skip_planning_min_dur)
    (hok : (prependApproach cfg env joint_names current_pos skip_planning
      traj_in []).1 = true) :
    0 < ((prependApproach cfg env joint_names current_pos skip_planning
      traj_in []).2.headD default).time_from_start := by
  have hr : ∀ goal, 0 ≤ noPlanningReachTime cfg current_pos goal :=
    fun goal => noPlanningReachTime_nonneg cfg hdur current_pos goal
  revert hok
  unfold prependApproach
  rw [if_neg htin]
  dsimp only
  split
  · intro h
    simp at h
  · split
    · intro h
      simp at h
    · split
      · intro h
        simp at h
      · split
        · intro _
          exact postProcess_head_pos cfg current_pos _
            (skipBranch_ne_nil cfg current_pos traj_in htin)
            (skipBranch_head_nonneg cfg current_pos traj_in htin hnn hr) hr
        · split
          · intro h
            simp at h
          · next approach heq =>
            split
            · intro _
              exact postProcess_head_pos cfg current_pos traj_in htin
                (headD_time_nonneg traj_in hnn) hr
            · next hne =>
              intro _
              have happr : ∀ p ∈ approach.points, 0 ≤ p.time_from_start := by
                rcases computeApproach_points_source cfg env joint_names
                    current_pos ((traj_in.headD default).positions) approach heq with
                  hempty | ⟨gname, hplan⟩
                · exact absurd hempty hne
                · exact henv gname approach hplan
              exact postProcess_head_pos cfg current_pos _
                (combineTrajectories_ne_nil joint_names current_pos traj_in
                  approach htin hne)
                (headD_time_nonneg _
                  (combineTrajectories_times_nonneg joint_names current_pos
                    traj_in approach hnn happr)) hr

/-- C3 witness: a concrete successful skip-planning call whose input starts
at time offset zero with zero displacement ends with first time offset
exactly the epsilon `1e-3 > 0`. -/
theorem prependApproach_first_time_pos_witness :
    0 < ((prependApproach ⟨1/1000, 1/2, 0, false, [], []⟩
      ⟨fun _ _ _ => true, fun _ => none⟩ ["j1"] [0] true
      [⟨[0], [], [], 0⟩] []).2.headD default).time_from_start :=
  prependApproach_first_time_pos _ _ _ _ _ _ (by decide)
    (by intro p hp; rcases List.mem_singleton.mp hp with rfl; norm_num)
    (by intro gname t h; simp at h)
    (by norm_num)
    (by norm_num [prependApproach, skipBranch, postProcess, addOffset,
      noPlanningReachTime, List.range_succ, List.getD])

lemma qadd_mulQ_inf_not_finite (p t : ℚ) (s : Bool) :
    (FVal.qadd p ((FVal.inf s).mulQ t)).isFinite = false := by
  by_cases ht : t = 0
  · simp only [FVal.mulQ, if_pos ht]
    rfl
  · simp only [FVal.mulQ, if_neg ht]
    rfl

/-- C9: the interpolation slope for joints absent from the approach is the
division `(p_max - p_min) / (t_max - t_min)` with no guard: for an approach
trajectory whose last point has time offset exactly zero, an absent joint
whose target differs from its current position gets — under IEEE-754
`double` semantics — a non-finite position in every merged point, and a
non-finite velocity whenever velocities are carried; the merge neither
rejects this input nor aborts, producing the full-length merged output. -/
theorem combineTrajectories_div_by_zero (joint_names : List String)
    (current_pos : List ℚ) (traj_in : List TrajPoint)
    (approach : JointTrajectory) (i : ℕ)
    (happr : approach.points ≠ [])
    (htin : traj_in ≠ [])
    (hlast : (approach.points.getLastD default).time_from_start = 0)
    (hi : i < (traj_in.headD default).positions.length)
    (hni : joint_names.getD i "" ∉ approach.joint_names)
    (hdiff : (traj_in.headD default).positions.getD i 0 ≠ current_pos.getD i 0) :
    (∀ pa ∈ approach.points,
      ((mergedPointF joint_names current_pos traj_in approach
          pa).positions.getD i FVal.nan).isFinite = false ∧
      (pa.velocities ≠ [] →
        ((mergedPointF joint_names current_pos traj_in approach
            pa).velocities.getD i FVal.nan).isFinite = false)) ∧
    (combineTrajectoriesF joint_names current_pos traj_in approach []).length =
      (if traj_in.length = 1 then approach.points.length
       else approach.points.length - 1 + traj_in.length) := by
  have hfind : approach.joint_names.findIdx?
      (fun x => x == joint_names.getD i "") = none := by
    rw [List.findIdx?_eq_none_iff]
    intro x hx
    simp only [beq_eq_false_iff_ne]
    intro hEq
    exact hni (hEq ▸ hx)
  have hsub : (traj_in.headD default).positions.getD i 0 -
      current_pos.getD i 0 ≠ 0 := sub_ne_zero_of_ne hdiff
  have hdiv : fdiv
      ((traj_in.headD default).positions.getD i 0 - current_pos.getD i 0)
      ((approach.points.getLastD default).time_from_start - 0) =
      FVal.inf (decide (0 < (traj_in.headD default).positions.getD i 0 -
        current_pos.getD i 0)) := by
    rw [hlast]
    unfold fdiv
    rw [if_pos (by norm_num), if_neg hsub]
  constructor
  · intro pa hpa
    constructor
    · simp only [mergedPointF]
      rw [getD_map_range _ _ _ _ hi, hfind, hdiv]
      exact qadd_mulQ_inf_not_finite _ _ _
    · intro hv
      have hv2 : pa.velocities.isEmpty = false := by
        simpa [List.isEmpty_iff] using hv
      simp only [mergedPointF, hv2]
      rw [if_pos (by rfl), getD_map_range _ _ _ _ hi, hfind, hdiv]
      rfl
  · unfold combineTrajectoriesF
    dsimp only
    rw [List.nil_append]
    by_cases h1 : traj_in.length = 1
    · rw [if_pos h1, if_pos h1, List.length_map]
    · rw [if_neg h1, if_neg h1]
      simp [List.length_dropLast]

/-- C9 witness: a one-point approach at time offset zero over joint `a`,
with joint `b` outside it moving from `0` to `2`: the merged point's
position and velocity for `b` are non-finite, and the merge still produces
its full output. -/
theorem combineTrajectories_div_by_zero_witness :
    ((mergedPointF ["a", "b"] [0, 0] [⟨[0, 2], [], [], 3⟩]
        ⟨["a"], [⟨[5], [7], [], 0⟩]⟩
        ⟨[5], [7], [], 0⟩).positions.getD 1 FVal.nan).isFinite = false := by
  have h := combineTrajectories_div_by_zero ["a", "b"] [0, 0]
    [⟨[0, 2], [], [], 3⟩] ⟨["a"], [⟨[5], [7], [], 0⟩]⟩ 1
    (by decide) (by decide) rfl (by decide) (by decide)
    (by norm_num [List.getD])
  exact (h.1 _ (List.mem_singleton_self _)).1

/-- C6 witness (the spec's example): `current = [0, 0]`, first waypoint
`[1, 2]` at time offset zero, `skip_planning_vel = 1/2`,
`skip_planning_min_dur = 0`: the reach time `4` is added to every
waypoint's time offset. -/
theorem prependApproach_skip_timing_witness :
    skipBranch ⟨1/1000, 1/2, 0, false, [], []⟩ [0, 0]
        [⟨[1, 2], [], [], 0⟩, ⟨[1, 2], [], [], 1⟩] =
      addOffset 4 [⟨[1, 2], [], [], 0⟩, ⟨[1, 2], [], [], 1⟩] := by
  have h := prependApproach_skip_timing ⟨1/1000, 1/2, 0, false, [], []⟩
    ⟨fun _ _ _ => true, fun _ => none⟩ ["a", "b"] [0, 0]
    [⟨[1, 2], [], [], 0⟩, ⟨[1, 2], [], [], 1⟩] [] (by decide) rfl rfl
  exact (h.2.2.1 rfl).trans
    (by norm_num [noPlanningReachTime, addOffset, List.range_succ, List.getD])

/-- C8: for every call to `prependApproach` with an empty input trajectory,
the call succeeds and the output trajectory equals the (empty) input
exactly; no validation, timing normalization or epsilon forcing is applied. -/
theorem prependApproach_empty_input (cfg : ApproachPlannerConfig)
    (env : PlannerEnv) (joint_names : List String) (current_pos : List ℚ)
    (skip_planning : Bool) (traj_out : List TrajPoint) :
    prependApproach cfg env joint_names current_pos skip_planning [] traj_out =
      (true, []) := by
  simp [prependApproach]

/-- C7: every failing call to `prependApproach` (size mismatch, planning
requested while disabled, no eligible group, or all candidate planner
attempts failed) leaves the caller-supplied output trajectory exactly as it
was: nothing is partially populated on failure. -/
theorem prependApproach_fail_frame (cfg : ApproachPlannerConfig)
    (env : PlannerEnv) (joint_names : List String) (current_pos : List ℚ)
    (skip_planning : Bool) (traj_in traj_out : List TrajPoint)
    (h : (prependApproach cfg env joint_names current_pos skip_planning
        traj_in traj_out).1 = false) :
    (prependApproach cfg env joint_names current_pos skip_planning
        traj_in traj_out).2 = traj_out := by
  revert h
  unfold prependApproach
  split
  · intro h; simp at h
  · dsimp only
    split
    · intro _; rfl
    · split
      · intro _; rfl
      · split
        · intro _; rfl
        · split
          · intro h; simp at h
          · split
            · intro _; rfl
            · split <;> intro h <;> simp at h

/-- C7 witness: a concrete failing call (the input point has dimension 0 but
one joint name is supplied) leaves a non-empty caller-supplied output vector
untouched. -/
theorem prependApproach_fail_frame_witness :
    (prependApproach ⟨1/1000, 1/2, 0, false, [], []⟩
        ⟨fun _ _ _ => true, fun _ => none⟩ ["j1"] [0] true
        [⟨[], [], [], 0⟩] [⟨[5], [], [], 7⟩]).2 = [⟨[5], [], [], 7⟩] :=
  prependApproach_fail_frame _ _ _ _ _ _ _ (by decide)

/-- C2: merging a non-empty approach with the input trajectory (starting
from an empty output vector) yields `len(approach) - 1 + len(input)` points
when the input has more than one point, and `len(approach)` points when the
input has exactly one point. -/
theorem combineTrajectories_length (joint_names : List String)
    (current_pos : List ℚ) (traj_in : List TrajPoint)
    (approach : JointTrajectory)
    (happr : approach.points ≠ []) (htin : traj_in ≠ []) :
    (1 < traj_in.length →
      (combineTrajectories joint_names current_pos traj_in approach []).length =
        approach.points.length - 1 + traj_in.length) ∧
    (traj_in.length = 1 →
      (combineTrajectories joint_names current_pos traj_in approach []).length =
        approach.points.length) := by
  constructor
  · intro hgt
    have hne : traj_in.length ≠ 1 := by omega
    simp [combineTrajectories, hne, List.length_dropLast]
  · intro heq
    simp [combineTrajectories, heq]

/-- C2 witness: a two-point approach merged with a two-point input yields
`2 - 1 + 2 = 3` points. -/
theorem combineTrajectories_length_witness :
    (combineTrajectories ["a"] [0] [⟨[0], [], [], 0⟩, ⟨[1], [], [], 1⟩]
        ⟨["a"], [⟨[0], [], [], 0⟩, ⟨[0], [], [], 2⟩]⟩ []).length = 3 :=
  (combineTrajectories_length _ _ _ _ (by decide) (by decide)).1 (by decide)

/-- C10: `combineTrajectories` appends to the caller-supplied output vector
without clearing it: with a non-empty approach (as guaranteed at its only
call site in `prependApproach`), a non-empty initial output vector remains
as an unmodified prefix of the result, and the merged points produced from
an empty initial output are placed after it. -/
theorem combineTrajectories_no_clear (joint_names : List String)
    (current_pos : List ℚ) (traj_in : List TrajPoint)
    (approach : JointTrajectory) (traj_out : List TrajPoint)
    (happr : approach.points ≠ []) (hout : traj_out ≠ []) :
    combineTrajectories joint_names current_pos traj_in approach traj_out =
      traj_out ++ combineTrajectories joint_names current_pos traj_in approach [] := by
  have hMne : approach.points.map
      (mergedPoint joint_names current_pos traj_in approach) ≠ [] := by
    simpa using happr
  unfold combineTrajectories
  by_cases h1 : traj_in.length = 1
  · simp [h1]
  · simp only [if_neg h1, List.nil_append]
    have hlast :
        ((traj_out ++ approach.points.map
            (mergedPoint joint_names current_pos traj_in approach)).getLastD default) =
          ((approach.points.map
            (mergedPoint joint_names current_pos traj_in approach)).getLastD default) := by
      rw [List.getLastD_eq_getLast?, List.getLastD_eq_getLast?, List.getLast?_append]
      cases hM2 : (approach.points.map
          (mergedPoint joint_names current_pos traj_in approach)).getLast? with
      | none => exact absurd (List.getLast?_eq_none_iff.mp hM2) hMne
      | some a => rfl
    rw [hlast, List.dropLast_append]
    have hM3 : (approach.points.map
        (mergedPoint joint_names current_pos traj_in approach)).isEmpty = false := by
      simpa [List.isEmpty_iff] using hMne
    rw [hM3]
    simp [List.append_assoc]

/-- C10 witness: a concrete merge with a one-element initial output vector
keeps that element as the first element, followed by the merged points. -/
theorem combineTrajectories_no_clear_witness :
    combineTrajectories ["a"] [0] [⟨[1], [], [], 1⟩]
        ⟨["a"], [⟨[0], [], [], 0⟩, ⟨[1], [], [], 2⟩]⟩ [⟨[9], [], [], 9⟩] =
      [⟨[9], [], [], 9⟩] ++ combineTrajectories ["a"] [0] [⟨[1], [], [], 1⟩]
        ⟨["a"], [⟨[0], [], [], 0⟩, ⟨[1], [], [], 2⟩]⟩ [] :=
  combineTrajectories_no_clear _ _ _ _ _ (by decide) (by decide)

end PlayMotion
